import Mathlib

/-!
Verification of the Boss Pizza admin dashboard's order-management core:
the status workflow (`src/types/orders.ts`), the view projection
(aggregate counts, today's revenue, elapsed-time bucketing), the
filter/sort/search pipeline of the priority manager, and the session
controller's fetch/advance behaviour.

Conventions of the embedding:
* Instants (`created_at`, `updated_at`, "now") are integers counting
  milliseconds on the local clock, so that local midnight boundaries are
  the multiples of `dayMs`.  `new Date(x).setHours(0,0,0,0)` is flooring
  to a multiple of `dayMs`, and `Math.floor(ms / 60000)` is integer floor
  division, which is what `/` on `Int` computes for a positive divisor.
* Currency amounts (JS numbers holding decimal currency values) are
  rationals.
* The JS `Array.prototype.sort` with a consistent comparator `c` is a
  stable sort by the total preorder `c a b ≤ 0`; it is modelled by
  `List.insertionSort`, which is stable and sorts by exactly that
  relation.
* `Set<string>` (the transient urgent-id set) is a `Finset String`.
-/

namespace BossPizza

/-- The seven-value order status enum from `src/types/orders.ts`. -/
inductive OrderStatus where
  | pending
  | confirmed
  | preparing
  | ready
  | out_for_delivery
  | delivered
  | cancelled
deriving DecidableEq, Repr

open OrderStatus

/-- `ORDER_STATUS_LABELS` from `src/types/orders.ts`. -/
def ORDER_STATUS_LABELS : OrderStatus → String
  | .pending => "Pending"
  | .confirmed => "Confirmed"
  | .preparing => "Preparing"
  | .ready => "Ready"
  | .out_for_delivery => "Out for Delivery"
  | .delivered => "Delivered"
  | .cancelled => "Cancelled"

/-- `NEXT_STATUS` from `src/types/orders.ts`: the single-step successor
table of the status workflow (`null` becomes `none`). -/
def NEXT_STATUS : OrderStatus → Option OrderStatus
  | .pending => some confirmed
  | .confirmed => some preparing
  | .preparing => some ready
  | .ready => some out_for_delivery
  | .out_for_delivery => some delivered
  | .delivered => none
  | .cancelled => none

/-- One line of an order (`OrderItem` in `src/types/orders.ts`),
restricted to the fields the verified code reads. -/
structure OrderItem where
  id : String
  order_id : String
  item_name : String
  quantity : Nat
  unit_price : ℚ
  total_price : ℚ
deriving DecidableEq, Repr

/-- An order (`Order` in `src/types/orders.ts`), restricted to the
fields the verified code reads.  `created_at` / `updated_at` are local
epoch milliseconds. -/
structure Order where
  id : String
  order_number : String
  customer_name : String
  customer_phone : String
  total_amount : ℚ
  order_status : OrderStatus
  created_at : Int
  updated_at : Int
  items : List OrderItem
deriving DecidableEq, Repr

/-- An append-only audit record (`OrderStatusHistory` in
`src/types/orders.ts`). -/
structure OrderStatusHistory where
  order_id : String
  status : OrderStatus
  notes : String
  created_by : String
deriving DecidableEq, Repr

/-! ### Claim C1: the next-status lookup follows the chain -/

/-- The successor function that §4.1 of the spec describes in words:
the chain `pending → confirmed → preparing → ready → out_for_delivery →
delivered`, with `delivered` and `cancelled` terminal. -/
def chainSuccessor : OrderStatus → Option OrderStatus
  | .pending => some confirmed
  | .confirmed => some preparing
  | .preparing => some ready
  | .ready => some out_for_delivery
  | .out_for_delivery => some delivered
  | .delivered => none
  | .cancelled => none

/-- C1: for every status the `NEXT_STATUS` lookup returns exactly the
successor prescribed by the chain
`pending → confirmed → preparing → ready → out_for_delivery → delivered`,
and it returns `none` exactly on the two terminal statuses `delivered`
and `cancelled` (so it is `some` — never none — on the other five). -/
theorem nextStatus_follows_chain :
    (∀ s : OrderStatus, NEXT_STATUS s = chainSuccessor s) ∧
    (∀ s : OrderStatus, NEXT_STATUS s = none ↔ (s = delivered ∨ s = cancelled)) := by
  constructor
  · intro s; cases s <;> rfl
  · intro s; cases s <;> simp [NEXT_STATUS]

/-! ### Claim C7: aggregate status counts -/

/-- The zero-initialised `counts` record built at the top of
`getStatusCounts` in the orders page: one integer per status value. -/
structure StatusCounts where
  pending : Nat
  confirmed : Nat
  preparing : Nat
  ready : Nat
  out_for_delivery : Nat
  delivered : Nat
  cancelled : Nat
deriving DecidableEq, Repr

/-- Read the field of a `StatusCounts` record selected by a status. -/
def StatusCounts.get (c : StatusCounts) : OrderStatus → Nat
  | .pending => c.pending
  | .confirmed => c.confirmed
  | .preparing => c.preparing
  | .ready => c.ready
  | .out_for_delivery => c.out_for_delivery
  | .delivered => c.delivered
  | .cancelled => c.cancelled

/-- The `counts[order.order_status]++` step of `getStatusCounts`. -/
def StatusCounts.incr (c : StatusCounts) : OrderStatus → StatusCounts
  | .pending => { c with pending := c.pending + 1 }
  | .confirmed => { c with confirmed := c.confirmed + 1 }
  | .preparing => { c with preparing := c.preparing + 1 }
  | .ready => { c with ready := c.ready + 1 }
  | .out_for_delivery => { c with out_for_delivery := c.out_for_delivery + 1 }
  | .delivered => { c with delivered := c.delivered + 1 }
  | .cancelled => { c with cancelled := c.cancelled + 1 }

/-- The sum of the seven count fields ("the values of the mapping"). -/
def StatusCounts.total (c : StatusCounts) : Nat :=
  c.pending + c.confirmed + c.preparing + c.ready + c.out_for_delivery +
    c.delivered + c.cancelled

/-- `getStatusCounts` from the orders page: start from the zero-filled
seven-key record and bump the field of each order's status. -/
def getStatusCounts (orders : List Order) : StatusCounts :=
  orders.foldl (fun c o => c.incr o.order_status)
    { pending := 0, confirmed := 0, preparing := 0, ready := 0,
      out_for_delivery := 0, delivered := 0, cancelled := 0 }

lemma StatusCounts.get_incr (c : StatusCounts) (s t : OrderStatus) :
    (c.incr s).get t = c.get t + (if s = t then 1 else 0) := by
  cases s <;> cases t <;> simp [StatusCounts.incr, StatusCounts.get]

lemma StatusCounts.total_incr (c : StatusCounts) (s : OrderStatus) :
    (c.incr s).total = c.total + 1 := by
  cases s <;> (simp [StatusCounts.incr, StatusCounts.total]; omega)

lemma getStatusCounts_total_aux (orders : List Order) (c : StatusCounts) :
    (orders.foldl (fun c o => c.incr o.order_status) c).total =
      c.total + orders.length := by
  induction orders generalizing c with
  | nil => simp
  | cons o rest ih =>
      simp only [List.foldl_cons, List.length_cons, ih, StatusCounts.total_incr]
      omega

lemma getStatusCounts_get_aux (orders : List Order) (c : StatusCounts)
    (s : OrderStatus) :
    (orders.foldl (fun c o => c.incr o.order_status) c).get s =
      c.get s + orders.countP (fun o => decide (o.order_status = s)) := by
  induction orders generalizing c with
  | nil => simp
  | cons o rest ih =>
      simp only [List.foldl_cons, List.countP_cons, ih, StatusCounts.get_incr]
      by_cases h : o.order_status = s
      · simp [h]
        omega
      · simp [h]

/-- C7: `getStatusCounts` is a total mapping over all seven statuses:
each status key holds exactly the number of orders carrying that status
(hence zero for statuses absent from the list), and the seven values sum
to the length of the order list. -/
theorem getStatusCounts_complete (orders : List Order) :
    (∀ s : OrderStatus,
      (getStatusCounts orders).get s =
        orders.countP (fun o => decide (o.order_status = s))) ∧
    (getStatusCounts orders).total = orders.length := by
  constructor
  · intro s
    have h := getStatusCounts_get_aux orders
      { pending := 0, confirmed := 0, preparing := 0, ready := 0,
        out_for_delivery := 0, delivered := 0, cancelled := 0 } s
    rw [getStatusCounts, h]
    cases s <;> simp [StatusCounts.get]
  · have h := getStatusCounts_total_aux orders
      { pending := 0, confirmed := 0, preparing := 0, ready := 0,
        out_for_delivery := 0, delivered := 0, cancelled := 0 }
    rw [getStatusCounts, h]
    simp [StatusCounts.total]

/-! ### Claim C2: today's revenue -/

/-- One day in local-clock milliseconds. -/
def dayMs : Int := 86400000

/-- One minute in milliseconds. -/
def minuteMs : Int := 60000

/-- `new Date(t).setHours(0, 0, 0, 0)` on the fixed-offset local clock:
floor the instant to the most recent local midnight.  `%` on `Int` is
`emod`, non-negative for the positive modulus `dayMs`, so this subtracts
the time of day. -/
def startOfDay (t : Int) : Int := t - t % dayMs

/-- `getTodayRevenue` from the orders page: keep the orders whose
`created_at` floored to midnight equals today's midnight and whose
status is not `cancelled`, then `reduce` their `total_amount`s. -/
def getTodayRevenue (now : Int) (orders : List Order) : ℚ :=
  let today := startOfDay now
  (orders.filter (fun o =>
      decide (startOfDay o.created_at = today) &&
      decide (o.order_status ≠ cancelled))).foldl
    (fun sum o => sum + o.total_amount) 0

/-- The spec's wording of "`created_at` falls on the current calendar
day (local time, whole-day boundary at midnight)": the instant lies in
the half-open day interval that starts at today's midnight. -/
def onCalendarDayOf (now t : Int) : Prop :=
  startOfDay now ≤ t ∧ t < startOfDay now + dayMs

instance (now t : Int) : Decidable (onCalendarDayOf now t) := by
  unfold onCalendarDayOf; infer_instance

lemma dayMs_pos : (0 : Int) < dayMs := by norm_num [dayMs]

lemma startOfDay_eq_mul (t : Int) : startOfDay t = dayMs * (t / dayMs) := by
  have h := Int.ediv_add_emod t dayMs
  unfold startOfDay
  omega

/-- The code's same-calendar-day test (equality of floored midnights)
agrees with the spec's half-open day interval. -/
lemma startOfDay_eq_iff (now t : Int) :
    startOfDay t = startOfDay now ↔ onCalendarDayOf now t := by
  constructor
  · intro h
    have h1 : 0 ≤ t % dayMs := Int.emod_nonneg t (by norm_num [dayMs])
    have h2 : t % dayMs < dayMs := Int.emod_lt_of_pos t dayMs_pos
    unfold onCalendarDayOf
    unfold startOfDay at h ⊢
    omega
  · rintro ⟨h1, h2⟩
    have ht := startOfDay_eq_mul t
    have hn := startOfDay_eq_mul now
    have hq1 : now / dayMs ≤ t / dayMs := by
      refine (Int.le_ediv_iff_mul_le dayMs_pos).2 ?_
      rw [hn] at h1
      linarith [h1]
    have hq2 : t / dayMs < now / dayMs + 1 := by
      refine (Int.ediv_lt_iff_lt_mul dayMs_pos).2 ?_
      rw [hn] at h2
      linarith [h2]
    have hq : t / dayMs = now / dayMs := by omega
    rw [ht, hn, hq]

lemma foldl_add_total (l : List Order) (init : ℚ) :
    l.foldl (fun sum o => sum + o.total_amount) init =
      init + (l.map Order.total_amount).sum := by
  induction l generalizing init with
  | nil => simp
  | cons o rest ih => simp [ih, add_assoc]

/-- C2: today's revenue sums `total_amount` over exactly the orders
whose `created_at` falls on the current calendar day (half-open interval
from today's midnight) and whose status is not `cancelled`; in
particular an order dated yesterday contributes nothing, a cancelled
order dated today contributes nothing, and a non-cancelled order dated
today contributes its `total_amount`. -/
theorem getTodayRevenue_spec :
    (∀ (now : Int) (orders : List Order),
      getTodayRevenue now orders =
        ((orders.filter (fun o =>
            decide (onCalendarDayOf now o.created_at) &&
            decide (o.order_status ≠ cancelled))).map Order.total_amount).sum) ∧
    (∀ (now : Int) (o : Order) (orders : List Order),
      startOfDay o.created_at = startOfDay now - dayMs →
      getTodayRevenue now (o :: orders) = getTodayRevenue now orders) ∧
    (∀ (now : Int) (o : Order) (orders : List Order),
      onCalendarDayOf now o.created_at → o.order_status = cancelled →
      getTodayRevenue now (o :: orders) = getTodayRevenue now orders) ∧
    (∀ (now : Int) (o : Order) (orders : List Order),
      onCalendarDayOf now o.created_at → o.order_status ≠ cancelled →
      getTodayRevenue now (o :: orders) =
        o.total_amount + getTodayRevenue now orders) := by
  have hpred : ∀ (now : Int) (o : Order),
      (decide (startOfDay o.created_at = startOfDay now) &&
        decide (o.order_status ≠ cancelled)) =
      (decide (onCalendarDayOf now o.created_at) &&
        decide (o.order_status ≠ cancelled)) := by
    intro now o
    rw [decide_eq_decide.2 (startOfDay_eq_iff now o.created_at)]
  have hmain : ∀ (now : Int) (orders : List Order),
      getTodayRevenue now orders =
        ((orders.filter (fun o =>
            decide (onCalendarDayOf now o.created_at) &&
            decide (o.order_status ≠ cancelled))).map Order.total_amount).sum := by
    intro now orders
    simp only [getTodayRevenue]
    rw [foldl_add_total, zero_add,
      List.filter_congr (fun o _ => hpred now o)]
  refine ⟨hmain, ?_, ?_, ?_⟩
  · intro now o orders h
    have hnot : ¬ onCalendarDayOf now o.created_at := by
      intro hc
      have := (startOfDay_eq_iff now o.created_at).2 hc
      have hd := dayMs_pos
      omega
    rw [hmain, hmain, List.filter_cons]
    simp [hnot]
  · intro now o orders hday hc
    rw [hmain, hmain, List.filter_cons]
    simp [hc]
  · intro now o orders hday hc
    rw [hmain, hmain, List.filter_cons]
    simp [hday, hc]

/-- Sample order used by concrete witnesses: created on local day 0. -/
def oDayZero : Order :=
  { id := "o1", order_number := "BP-001", customer_name := "Ada",
    customer_phone := "0301", total_amount := 10, order_status := pending,
    created_at := 5, updated_at := 5, items := [] }

/-- Sample cancelled order created on local day 1. -/
def oCancelledDayOne : Order :=
  { id := "o2", order_number := "BP-002", customer_name := "Bob",
    customer_phone := "0302", total_amount := 20, order_status := cancelled,
    created_at := 86400000 + 7, updated_at := 86400000 + 7, items := [] }

/-- Sample non-cancelled order created on local day 1. -/
def oDayOne : Order :=
  { id := "o3", order_number := "BP-003", customer_name := "Cleo",
    customer_phone := "0303", total_amount := 30, order_status := confirmed,
    created_at := 86400000 + 9, updated_at := 86400000 + 9, items := [] }

/-- Concrete check of C2 with "now" early on local day 1: the order
dated yesterday and the cancelled order dated today contribute nothing,
the non-cancelled order dated today contributes its amount. -/
theorem getTodayRevenue_spec_witness :
    getTodayRevenue (dayMs + 100) [oDayZero] =
      getTodayRevenue (dayMs + 100) [] ∧
    getTodayRevenue (dayMs + 100) [oCancelledDayOne] =
      getTodayRevenue (dayMs + 100) [] ∧
    getTodayRevenue (dayMs + 100) [oDayOne] =
      oDayOne.total_amount + getTodayRevenue (dayMs + 100) [] :=
  ⟨getTodayRevenue_spec.2.1 (dayMs + 100) oDayZero [] (by decide),
   getTodayRevenue_spec.2.2.1 (dayMs + 100) oCancelledDayOne [] (by decide) rfl,
   getTodayRevenue_spec.2.2.2 (dayMs + 100) oDayOne [] (by decide) (by decide)⟩

/-! ### Claim C3: elapsed-time bucketing -/

/-- The `{ text, color }` record returned by `getTimeElapsed` in
`order-card-enhanced.tsx`. -/
structure TimeInfo where
  text : String
  color : String
deriving DecidableEq, Repr

/-- `Math.floor((now - orderTime) / (1000 * 60))`: the whole-minute
difference between the two instants (floor division). -/
def diffInMinutes (now created_at : Int) : Int :=
  (now - created_at) / minuteMs

/-- `getTimeElapsed` from `order-card-enhanced.tsx`. -/
def getTimeElapsed (now created_at : Int) : TimeInfo :=
  let d := diffInMinutes now created_at
  if d < 5 then { text := "Just now", color := "text-green-600" }
  else if d < 15 then { text := s!"{d}m ago", color := "text-yellow-600" }
  else if d < 30 then { text := s!"{d}m ago", color := "text-orange-600" }
  else { text := s!"{d}m ago", color := "text-red-600" }

/-- The four display buckets of the elapsed-time classification. -/
inductive Bucket where
  | justNow
  | lowUrgency
  | mediumUrgency
  | highUrgency
deriving DecidableEq, Repr

/-- Recover the bucket from the color class the component renders. -/
def bucketOf (t : TimeInfo) : Bucket :=
  if t.color = "text-green-600" then .justNow
  else if t.color = "text-yellow-600" then .lowUrgency
  else if t.color = "text-orange-600" then .mediumUrgency
  else .highUrgency

/-- The bucket the spec assigns to a whole-minute difference `N`:
`N < 5` just now, `5 ≤ N < 15` low urgency, `15 ≤ N < 30` medium
urgency, `N ≥ 30` high urgency (inclusive-lower / exclusive-upper). -/
def bucketSpec (n : Int) : Bucket :=
  if n < 5 then .justNow
  else if 5 ≤ n ∧ n < 15 then .lowUrgency
  else if 15 ≤ n ∧ n < 30 then .mediumUrgency
  else .highUrgency

/-- C3: the elapsed-time classification is a total function of the
whole-minute difference, with the spec's inclusive-lower /
exclusive-upper boundaries; in particular an order created 4 minutes ago
is "just now" (text and bucket alike) and one created exactly 30 minutes
ago is in the high-urgency bucket. -/
theorem getTimeElapsed_buckets :
    (∀ now created_at : Int,
      bucketOf (getTimeElapsed now created_at) =
        bucketSpec (diffInMinutes now created_at)) ∧
    bucketOf (getTimeElapsed (4 * minuteMs) 0) = .justNow ∧
    (getTimeElapsed (4 * minuteMs) 0).text = "Just now" ∧
    bucketOf (getTimeElapsed (30 * minuteMs) 0) = .highUrgency := by
  refine ⟨?_, by decide, by decide, by decide⟩
  intro now created_at
  have hcode : bucketOf (getTimeElapsed now created_at) =
      (if diffInMinutes now created_at < 5 then Bucket.justNow
       else if diffInMinutes now created_at < 15 then Bucket.lowUrgency
       else if diffInMinutes now created_at < 30 then Bucket.mediumUrgency
       else Bucket.highUrgency) := by
    simp only [getTimeElapsed]
    split_ifs <;> rfl
  rw [hcode]
  simp only [bucketSpec]
  split_ifs <;> first | rfl | omega

/-! ### The priority manager's filter/sort/search pipeline -/

/-- The `SortOption` union type of `priority-manager`. -/
inductive SortOption where
  | time
  | amount
  | status
  | priority
deriving DecidableEq, Repr

/-- `'asc' | 'desc'`. -/
inductive SortDir where
  | asc
  | desc
deriving DecidableEq, Repr

/-- The `FilterOption` union type of `priority-manager`: `all`,
`urgent`, or one of the seven concrete statuses. -/
inductive FilterOption where
  | all
  | urgent
  | byStatus (s : OrderStatus)
deriving DecidableEq, Repr

/-- `String.toLowerCase` as a character list (ASCII lowering). -/
def toLowerCL (s : String) : List Char := s.data.map Char.toLower

/-- Character-list helper: does the text start with the pattern? -/
def startsWithCL : List Char → List Char → Bool
  | [], _ => true
  | _ :: _, [] => false
  | p :: ps, c :: cs => p == c && startsWithCL ps cs

/-- JS `text.includes(pattern)` on character lists: the pattern occurs
as a contiguous substring of the text. -/
def containsCL (p : List Char) : List Char → Bool
  | [] => p.isEmpty
  | c :: cs => startsWithCL p (c :: cs) || containsCL p cs

/-- The search predicate of the pipeline: case-insensitive substring
match on the order number or the customer name, or a raw substring
match on the phone. -/
def searchMatches (searchTerm : String) (o : Order) : Bool :=
  containsCL (toLowerCL searchTerm) (toLowerCL o.order_number) ||
  containsCL (toLowerCL searchTerm) (toLowerCL o.customer_name) ||
  containsCL searchTerm.data o.customer_phone.data

/-- The fixed ordinal table `statusOrder` used by the `status` sort key
(NOT alphabetical). -/
def statusOrder : List OrderStatus :=
  [pending, confirmed, preparing, ready, out_for_delivery, delivered, cancelled]

/-- `statusOrder.indexOf(status)`, as an integer. -/
def statusIdx (s : OrderStatus) : Int := (statusOrder.indexOf s : Nat)

/-- `urgentOrders.has(o.id) ? 1 : 0`. -/
def urgFlag (urgentOrders : Finset String) (o : Order) : Int :=
  if o.id ∈ urgentOrders then 1 else 0

/-- The `comparison` value of the pipeline's comparator `switch`
(before the ascending/descending sign flip). -/
def comparison (sortBy : SortOption) (urgentOrders : Finset String)
    (a b : Order) : ℚ :=
  match sortBy with
  | .time => ((a.created_at - b.created_at : Int) : ℚ)
  | .amount => a.total_amount - b.total_amount
  | .status => ((statusIdx a.order_status - statusIdx b.order_status : Int) : ℚ)
  | .priority => ((urgFlag urgentOrders b - urgFlag urgentOrders a : Int) : ℚ)

/-- The total preorder realised by the comparator handed to
`Array.sort`: `a` may come before `b` iff the (sign-adjusted) comparator
value is `≤ 0`.  A JS stable sort with a consistent comparator sorts by
exactly this relation. -/
def jsLe (sortBy : SortOption) (urgentOrders : Finset String)
    (sortOrder : SortDir) (a b : Order) : Prop :=
  (if sortOrder = .asc then comparison sortBy urgentOrders a b
   else -comparison sortBy urgentOrders a b) ≤ 0

instance (sortBy : SortOption) (urgentOrders : Finset String)
    (sortOrder : SortDir) :
    DecidableRel (jsLe sortBy urgentOrders sortOrder) := fun a b => by
  unfold jsLe; infer_instance

/-- The numeric key underlying each comparator case:
`comparison a b = sortKey a - sortKey b`. -/
def sortKey (sortBy : SortOption) (urgentOrders : Finset String)
    (o : Order) : ℚ :=
  match sortBy with
  | .time => (o.created_at : ℚ)
  | .amount => o.total_amount
  | .status => (statusIdx o.order_status : ℚ)
  | .priority => -(urgFlag urgentOrders o : ℚ)

lemma comparison_eq_sub (sortBy : SortOption) (urgentOrders : Finset String)
    (a b : Order) :
    comparison sortBy urgentOrders a b =
      sortKey sortBy urgentOrders a - sortKey sortBy urgentOrders b := by
  cases sortBy <;> (simp [comparison, sortKey]; try ring)

lemma jsLe_iff (sortBy : SortOption) (urgentOrders : Finset String)
    (sortOrder : SortDir) (a b : Order) :
    jsLe sortBy urgentOrders sortOrder a b ↔
      (if sortOrder = .asc then
        sortKey sortBy urgentOrders a ≤ sortKey sortBy urgentOrders b
       else sortKey sortBy urgentOrders b ≤ sortKey sortBy urgentOrders a) := by
  unfold jsLe
  rw [comparison_eq_sub]
  cases sortOrder <;> simp

instance (sortBy : SortOption) (urgentOrders : Finset String)
    (sortOrder : SortDir) :
    IsTotal Order (jsLe sortBy urgentOrders sortOrder) := by
  constructor
  intro a b
  rw [jsLe_iff, jsLe_iff]
  cases sortOrder <;> simp <;> exact le_total _ _

instance (sortBy : SortOption) (urgentOrders : Finset String)
    (sortOrder : SortDir) :
    IsTrans Order (jsLe sortBy urgentOrders sortOrder) := by
  constructor
  intro a b c hab hbc
  rw [jsLe_iff] at hab hbc ⊢
  cases sortOrder <;> simp_all <;> linarith

/-- Stage 1 of the pipeline: `if (searchTerm) filtered = filtered.filter(...)`
(an empty search term is falsy, so it is a no-op). -/
def applySearch (searchTerm : String) (orders : List Order) : List Order :=
  if searchTerm = "" then orders else orders.filter (searchMatches searchTerm)

/-- Stage 2 of the pipeline: `if (filterBy !== 'all') ...` — `urgent`
keeps members of the urgent-id set, a concrete status keeps exact status
matches, `all` is a no-op. -/
def applyStatusFilter (filterBy : FilterOption) (urgentOrders : Finset String)
    (l : List Order) : List Order :=
  match filterBy with
  | .all => l
  | .urgent => l.filter (fun o => decide (o.id ∈ urgentOrders))
  | .byStatus s => l.filter (fun o => o.order_status == s)

/-- `filteredOrders` from `priority-manager`: copy, search-filter,
status-filter, then stable sort by the chosen comparator. -/
def filteredOrders (orders : List Order) (searchTerm : String)
    (sortBy : SortOption) (filterBy : FilterOption) (sortOrder : SortDir)
    (urgentOrders : Finset String) : List Order :=
  List.insertionSort (jsLe sortBy urgentOrders sortOrder)
    (applyStatusFilter filterBy urgentOrders (applySearch searchTerm orders))

/-- `getFilterCount` from `priority-manager`: `all` counts the whole
list, `urgent` reports the size of the urgent-id set itself, a concrete
status counts status matches. -/
def getFilterCount (orders : List Order) (urgentOrders : Finset String) :
    FilterOption → Nat
  | .all => orders.length
  | .urgent => urgentOrders.card
  | .byStatus s => (orders.filter (fun o => o.order_status == s)).length

/-! ### Claim C4: the urgent filter selects exactly the urgent-id set -/

/-- C4: with an empty search term and the `urgent` filter, the pipeline
returns exactly the orders whose id belongs to the urgent-id set — as a
multiset (a permutation of the plain filter) and element-wise — with no
condition on any order's `order_status`. -/
theorem urgentFilter_selects_urgent_ids (orders : List Order)
    (sortBy : SortOption) (sortOrder : SortDir) (urgentOrders : Finset String) :
    (filteredOrders orders "" sortBy .urgent sortOrder urgentOrders).Perm
      (orders.filter (fun o => decide (o.id ∈ urgentOrders))) ∧
    ∀ o : Order,
      o ∈ filteredOrders orders "" sortBy .urgent sortOrder urgentOrders ↔
        o ∈ orders ∧ o.id ∈ urgentOrders := by
  have hperm :=
    List.perm_insertionSort (jsLe sortBy urgentOrders sortOrder)
      (orders.filter (fun o => decide (o.id ∈ urgentOrders)))
  have hdef : filteredOrders orders "" sortBy .urgent sortOrder urgentOrders =
      List.insertionSort (jsLe sortBy urgentOrders sortOrder)
        (orders.filter (fun o => decide (o.id ∈ urgentOrders))) := rfl
  refine ⟨hdef ▸ hperm, fun o => ?_⟩
  rw [hdef, List.mem_insertionSort, List.mem_filter]
  simp

lemma mem_applySearch {searchTerm : String} {orders : List Order} {x : Order}
    (hx : x ∈ applySearch searchTerm orders) : x ∈ orders := by
  unfold applySearch at hx
  split at hx
  · exact hx
  · exact (List.mem_filter.1 hx).1

lemma applySearch_mem_matches {searchTerm : String} {orders : List Order}
    {x : Order} (hx : x ∈ applySearch searchTerm orders)
    (hne : ¬ searchTerm = "") : searchMatches searchTerm x = true := by
  unfold applySearch at hx
  rw [if_neg hne] at hx
  exact (List.mem_filter.1 hx).2

lemma applySearch_eq_self {searchTerm : String} {l : List Order}
    (h : ∀ x ∈ l, ¬ searchTerm = "" → searchMatches searchTerm x = true) :
    applySearch searchTerm l = l := by
  unfold applySearch
  split
  · rfl
  · next hne => exact List.filter_eq_self.2 (fun x hx => h x hx hne)

lemma mem_applyStatusFilter {filterBy : FilterOption}
    {urgentOrders : Finset String} {l : List Order} {x : Order}
    (hx : x ∈ applyStatusFilter filterBy urgentOrders l) : x ∈ l := by
  cases filterBy with
  | all => exact hx
  | urgent => exact (List.mem_filter.1 hx).1
  | byStatus s => exact (List.mem_filter.1 hx).1

lemma applyStatusFilter_eq_self {filterBy : FilterOption}
    {urgentOrders : Finset String} (src : List Order) {l : List Order}
    (h : ∀ x ∈ l, x ∈ applyStatusFilter filterBy urgentOrders src) :
    applyStatusFilter filterBy urgentOrders l = l := by
  cases filterBy with
  | all => rfl
  | urgent =>
      exact List.filter_eq_self.2
        (fun x hx => (List.mem_filter.1 (h x hx)).2)
  | byStatus s =>
      exact List.filter_eq_self.2
        (fun x hx => (List.mem_filter.1 (h x hx)).2)

/-! ### Claim C6: the pipeline is idempotent (and, being a pure
function on immutable lists in this embedding, it cannot mutate its
input — it builds a new list) -/

/-- C6: for every order list and every fixed choice of search term,
filter, sort key and direction, running the filter/sort/search pipeline
on its own output returns that output unchanged.  (Non-mutation of the
input is intrinsic here: `filteredOrders` is a pure function over
immutable lists, so `orders` is untouched and the result is a fresh
list.) -/
theorem filteredOrders_idempotent (orders : List Order) (searchTerm : String)
    (sortBy : SortOption) (filterBy : FilterOption) (sortOrder : SortDir)
    (urgentOrders : Finset String) :
    filteredOrders
        (filteredOrders orders searchTerm sortBy filterBy sortOrder urgentOrders)
        searchTerm sortBy filterBy sortOrder urgentOrders =
      filteredOrders orders searchTerm sortBy filterBy sortOrder urgentOrders := by
  set r := jsLe sortBy urgentOrders sortOrder with hr
  set l1 := applySearch searchTerm orders with hl1
  set l2 := applyStatusFilter filterBy urgentOrders l1 with hl2
  set out := List.insertionSort r l2 with hout
  have hmem : ∀ x ∈ out, x ∈ l2 := by
    intro x hx
    rw [hout] at hx
    exact (List.mem_insertionSort r).1 hx
  have h1 : applySearch searchTerm out = out :=
    applySearch_eq_self (fun x hx hne =>
      applySearch_mem_matches (mem_applyStatusFilter (hmem x hx)) hne)
  have h2 : applyStatusFilter filterBy urgentOrders out = out :=
    applyStatusFilter_eq_self l1 (fun x hx => hmem x hx)
  have hsorted : List.Sorted r out := by
    rw [hout]
    exact List.sorted_insertionSort r l2
  show List.insertionSort r
      (applyStatusFilter filterBy urgentOrders (applySearch searchTerm out)) = out
  rw [h1, h2]
  exact hsorted.insertionSort_eq

/-! ### Claim C5: status sort uses the fixed ordinal table -/

/-- C5: `statusOrder.indexOf` realises exactly the canonical ordinal
table (`pending` 0 … `cancelled` 6 — not alphabetical), and in the
pipeline sorted by the `status` key ascending, every order with status
`pending` appears strictly before every order with status `delivered`,
whatever their `created_at` instants. -/
theorem statusSort_pending_before_delivered :
    (statusIdx pending = 0 ∧ statusIdx confirmed = 1 ∧
     statusIdx preparing = 2 ∧ statusIdx ready = 3 ∧
     statusIdx out_for_delivery = 4 ∧ statusIdx delivered = 5 ∧
     statusIdx cancelled = 6) ∧
    (∀ (orders : List Order) (searchTerm : String) (filterBy : FilterOption)
       (urgentOrders : Finset String) (i j : Nat)
       (hi : i < (filteredOrders orders searchTerm .status filterBy .asc
          urgentOrders).length)
       (hj : j < (filteredOrders orders searchTerm .status filterBy .asc
          urgentOrders).length),
       ((filteredOrders orders searchTerm .status filterBy .asc
          urgentOrders).get ⟨i, hi⟩).order_status = pending →
       ((filteredOrders orders searchTerm .status filterBy .asc
          urgentOrders).get ⟨j, hj⟩).order_status = delivered →
       i < j) := by
  refine ⟨by decide, ?_⟩
  intro orders searchTerm filterBy urgentOrders i j hi hj hpi hpj
  have hsorted :
      List.Sorted (jsLe .status urgentOrders .asc)
        (filteredOrders orders searchTerm .status filterBy .asc urgentOrders) :=
    List.sorted_insertionSort _ _
  rcases Nat.lt_trichotomy i j with h | h | h
  · exact h
  · exfalso
    subst h
    rw [hpi] at hpj
    exact absurd hpj (by decide)
  · exfalso
    have hrel := hsorted.rel_get_of_lt
      (show (⟨j, hj⟩ : Fin _) < ⟨i, hi⟩ from h)
    rw [jsLe_iff] at hrel
    simp only [if_pos rfl, sortKey] at hrel
    rw [hpi, hpj] at hrel
    norm_num [statusIdx, statusOrder] at hrel
    exact absurd hrel (by decide)

/-- A delivered sample order created before `oDayZero`. -/
def oDeliveredEarly : Order :=
  { id := "o5", order_number := "BP-005", customer_name := "Dan",
    customer_phone := "0305", total_amount := 40, order_status := delivered,
    created_at := 1, updated_at := 1, items := [] }

/-- Concrete check of C5: sorting `[delivered-but-older, pending]` by
status ascending puts the pending order (slot 0) before the delivered
one (slot 1), although the delivered one was created earlier. -/
theorem statusSort_pending_before_delivered_witness : (0 : Nat) < 1 :=
  statusSort_pending_before_delivered.2 [oDeliveredEarly, oDayZero] ""
    .all ∅ 0 1 (by decide) (by decide) (by decide) (by decide)

/-! ### Claim C10: the urgent filter count reports the set size -/

/-- An urgent-id set holding an id that no order in the list carries. -/
def ghostSet : Finset String := {"ghost"}

/-- C10: the count shown beside the `urgent` filter option is the
cardinality of the urgent-id set itself — not the number of matching
orders — and for an urgent set holding an id absent from the order list
it strictly exceeds what the urgent filter returns; for each concrete
status filter the displayed count equals the number of orders the
pipeline returns for that filter with an empty search term. -/
theorem getFilterCount_reports_set_size :
    (∀ (orders : List Order) (urgentOrders : Finset String),
      getFilterCount orders urgentOrders .urgent = urgentOrders.card) ∧
    getFilterCount [oDayZero] ghostSet .urgent >
      (filteredOrders [oDayZero] "" .time .urgent .asc ghostSet).length ∧
    (∀ (orders : List Order) (urgentOrders : Finset String) (s : OrderStatus)
       (sortBy : SortOption) (sortOrder : SortDir),
      getFilterCount orders urgentOrders (.byStatus s) =
        (filteredOrders orders "" sortBy (.byStatus s) sortOrder
          urgentOrders).length) := by
  refine ⟨fun _ _ => rfl, by decide, ?_⟩
  intro orders urgentOrders s sortBy sortOrder
  show (orders.filter (fun o => o.order_status == s)).length = _
  unfold filteredOrders applySearch applyStatusFilter
  rw [if_pos rfl, List.length_insertionSort]

/-! ### Claim C8: advancing a terminal order is a no-op -/

/-- `canAdvance` from `order-card-enhanced.tsx`:
`NEXT_STATUS[order.order_status] !== null`. -/
def canAdvance (s : OrderStatus) : Bool := (NEXT_STATUS s).isSome

/-- The store rows the session controller writes: the orders table and
the append-only status-history table. -/
structure StoreState where
  orders : List Order
  history : List OrderStatusHistory
deriving DecidableEq, Repr

/-- `updateOrderStatus` from the orders page: set `order_status` and
`updated_at` on the matching order, then append one history row with
the label-derived note and creator tag `staff`. -/
def updateOrderStatus (st : StoreState) (orderId : String)
    (newStatus : OrderStatus) (now : Int) : StoreState :=
  { orders := st.orders.map (fun o =>
      if o.id = orderId then
        { o with order_status := newStatus, updated_at := now }
      else o),
    history := st.history ++
      [{ order_id := orderId, status := newStatus,
         notes := "Status updated to " ++ ORDER_STATUS_LABELS newStatus,
         created_by := "staff" }] }

/-- The advance action as the card exposes it: the advance button is
rendered only when `canAdvance`, i.e. when `NEXT_STATUS` is non-null, so
on a terminal order nothing is invoked and the store is untouched;
otherwise `updateOrderStatus(order.id, nextStatus)` runs. -/
def advanceStatus (st : StoreState) (o : Order) (now : Int) : StoreState :=
  match NEXT_STATUS o.order_status with
  | none => st
  | some ns => updateOrderStatus st o.id ns now

/-- C8: advancing an order whose status is terminal (`delivered` or
`cancelled`, i.e. `nextStatus` is none) leaves the store exactly as it
was: no order row is updated and no status-history record is written. -/
theorem advanceStatus_terminal_noop (st : StoreState) (o : Order) (now : Int)
    (h : o.order_status = delivered ∨ o.order_status = cancelled) :
    advanceStatus st o now = st ∧
    (advanceStatus st o now).orders = st.orders ∧
    (advanceStatus st o now).history = st.history := by
  have hnone : NEXT_STATUS o.order_status = none := by
    rcases h with h | h <;> rw [h] <;> rfl
  unfold advanceStatus
  rw [hnone]
  exact ⟨rfl, rfl, rfl⟩

/-- A sample store holding one delivered order and an empty audit
trail. -/
def sampleStore : StoreState := { orders := [oDeliveredEarly], history := [] }

/-- Concrete check of C8: advancing the delivered sample order writes
nothing. -/
theorem advanceStatus_terminal_noop_witness :
    advanceStatus sampleStore oDeliveredEarly 999 = sampleStore ∧
    (advanceStatus sampleStore oDeliveredEarly 999).orders =
      sampleStore.orders ∧
    (advanceStatus sampleStore oDeliveredEarly 999).history =
      sampleStore.history :=
  advanceStatus_terminal_noop sampleStore oDeliveredEarly 999 (Or.inl rfl)

/-! ### Claim C9: a partial fetch failure aborts the whole refresh -/

/-- `Promise.all` over settled results: the first rejection rejects the
whole batch, otherwise all values are collected in order. -/
def promiseAll {α : Type} : List (Except String α) → Except String (List α)
  | [] => .ok []
  | .error e :: _ => .error e
  | .ok a :: rest => (promiseAll rest).map (fun l => a :: l)

/-- `fetchOrders` from the orders page, with the store boundary passed
in as data: fetch the order rows, fetch each order's items, merge.  The
`setOrders` publish happens only after every fetch succeeded; any
thrown error lands in the `catch` block, which keeps the previous
snapshot and raises the destructive "Failed to fetch orders" toast
(modelled by the `Bool` component). -/
def fetchOrders (prev : List Order)
    (ordersRes : Except String (List Order))
    (itemsRes : String → Except String (List OrderItem)) :
    List Order × Bool :=
  match ordersRes with
  | .error _ => (prev, true)
  | .ok rows =>
    match promiseAll (rows.map (fun r =>
        (itemsRes r.id).map (fun its => { r with items := its }))) with
    | .error _ => (prev, true)
    | .ok merged => (merged, false)

lemma promiseAll_error {α : Type} {l : List (Except String α)}
    (h : ∃ x ∈ l, ∃ e, x = Except.error e) :
    ∃ e, promiseAll l = Except.error e := by
  induction l with
  | nil =>
      rcases h with ⟨x, hx, _⟩
      cases hx
  | cons a rest ih =>
      rcases h with ⟨x, hx, e, hxe⟩
      rcases List.mem_cons.1 hx with rfl | hmem
      · rw [hxe]
        exact ⟨e, rfl⟩
      · cases a with
        | error e2 => exact ⟨e2, rfl⟩
        | ok v =>
            rcases ih ⟨x, hmem, e, hxe⟩ with ⟨e3, h3⟩
            refine ⟨e3, ?_⟩
            simp [promiseAll, h3, Except.map]

/-- C9: if the orders fetch fails, or any single order's item fetch
fails, the whole refresh aborts all-or-nothing — the published snapshot
is exactly the previous one and the failure is surfaced as a
user-visible error. -/
theorem fetchOrders_all_or_nothing :
    (∀ (prev : List Order) (e : String)
       (itemsRes : String → Except String (List OrderItem)),
      fetchOrders prev (Except.error e) itemsRes = (prev, true)) ∧
    (∀ (prev rows : List Order)
       (itemsRes : String → Except String (List OrderItem)) (r : Order),
      r ∈ rows → (∃ e, itemsRes r.id = Except.error e) →
      fetchOrders prev (Except.ok rows) itemsRes = (prev, true)) := by
  refine ⟨fun _ _ _ => rfl, ?_⟩
  intro prev rows itemsRes r hr ⟨e, he⟩
  have hmap : ∃ x ∈ rows.map (fun r =>
      (itemsRes r.id).map (fun its => { r with items := its })),
      ∃ e2, x = Except.error e2 := by
    refine ⟨(itemsRes r.id).map (fun its => { r with items := its }),
      List.mem_map_of_mem _ hr, e, ?_⟩
    rw [he]
    rfl
  rcases promiseAll_error hmap with ⟨e3, h3⟩
  simp only [fetchOrders]
  rw [h3]

/-- Concrete check of C9: one order row whose item fetch rejects — the
previous snapshot survives and the error is surfaced. -/
theorem fetchOrders_all_or_nothing_witness :
    fetchOrders [oDayZero] (Except.ok [oDayOne])
      (fun _ => Except.error "net") = ([oDayZero], true) :=
  fetchOrders_all_or_nothing.2 [oDayZero] [oDayOne]
    (fun _ => Except.error "net") oDayOne (List.mem_singleton.2 rfl)
    ⟨"net", rfl⟩

end BossPizza
